import Mathlib

/-!
Verification of the validation-and-aggregation pipeline of `src/add.py`
(`NumberValidator`, `ListSource`, `FileSource`, `AdditionService`).

Shallow embedding notes:
* Python `decimal.Decimal` finite values are modelled as a signed integer
  coefficient together with a base-10 exponent (`Dec`), plus the special
  values infinity, quiet NaN and signaling NaN (`DecValue`).  Arithmetic
  follows the default decimal context: 28 significant digits, additions
  rounded half-even, `quantize` rounding half-up and signaling
  `InvalidOperation` when the target coefficient would exceed 28 digits.
  The exponent limits `Emax`/`Emin` (±999999) of the default context are not
  modelled; they are unreachable for every statement proved below because
  `quantize` already rejects the affected magnitudes.
* Strings are handled character-wise; digits are ASCII digits.  (Python's
  `Decimal` constructor also accepts non-ASCII unicode decimal digits; no
  statement below depends on such inputs.)  Python `str.strip` is modelled
  by `pyStrip` over Python's six ASCII whitespace characters.
* Wall-clock time is made explicit: the aggregator receives a `clock`
  function giving the elapsed time observed by the timeout check that runs
  before each token (src/add.py:205).  The `execution_time` field of
  `OperationResult` (pure measurement) is not modelled.
* Logging calls are external effects and are not modelled.  The stray token
  `a` in the logging configuration at src/add.py:16 is a slip in that
  peripheral glue (it makes the module fail to parse); the pipeline below
  embeds the pipeline code as written, independent of it.
-/

namespace AddSvc

/-- Python ASCII whitespace as stripped by `str.strip`. -/
def isPySpace (ch : Char) : Bool :=
  ch == ' ' || ch == '\t' || ch == '\n' || ch == '\r' || ch == '\x0b' || ch == '\x0c'

/-- Python `str.strip` on a character list. -/
def pyStripL (l : List Char) : List Char :=
  ((l.dropWhile isPySpace).reverse.dropWhile isPySpace).reverse

/-- Python `str.strip`. -/
def pyStrip (s : String) : String := ⟨pyStripL s.data⟩

/-- Python `str.lower` (ASCII case folding, as used by the validator inputs). -/
def strLower (s : String) : String := ⟨s.data.map Char.toLower⟩

/-- Python `ch in s` membership test for a single character. -/
def strHasChar (s : String) (ch : Char) : Bool := s.data.any (fun x => x == ch)

/-! Section: Decimal model -/

/-- A finite `decimal.Decimal`: coefficient times `10 ^ exp`.  Python keeps the
sign apart from a natural coefficient; a signed coefficient is equivalent for
every value-level statement proved here (the sign of a zero result is never
observed by the pipeline). -/
structure Dec where
  coeff : ℤ
  exp : ℤ
deriving DecidableEq

/-- A `decimal.Decimal` value: finite, ±infinity, quiet NaN or signaling NaN. -/
inductive DecValue
  | fin (d : Dec)
  | inf (neg : Bool)
  | qnan
  | snan
deriving DecidableEq

/-- Precision of the default decimal context used by `src/add.py`
(28 significant digits). -/
def PREC : ℕ := 28

/-- Decimal digit count, fuel-based so that the kernel can evaluate it; the
fuel `n + 1` always suffices. -/
def numDigitsAux : ℕ → ℕ → ℕ
  | 0, _ => 0
  | fuel+1, n => if n < 10 then 1 else numDigitsAux fuel (n / 10) + 1

/-- Number of decimal digits of `n` (`numDigits 0 = 1`, matching the
one-digit coefficient `0`). -/
def numDigits (n : ℕ) : ℕ := numDigitsAux (n+1) n

/-- Round `n / d` to the nearest natural number, ties to even (`d > 0`);
the rounding used on coefficient magnitudes by default-context arithmetic. -/
def roundHalfEvenNat (n d : ℕ) : ℕ :=
  if 2 * (n % d) < d then n / d
  else if d < 2 * (n % d) then n / d + 1
  else if (n / d) % 2 = 0 then n / d else n / d + 1

/-- Round `n / d` to the nearest natural number, ties upward (`d > 0`);
`ROUND_HALF_UP` on a coefficient magnitude. -/
def roundHalfUpNat (n d : ℕ) : ℕ :=
  if d ≤ 2 * (n % d) then n / d + 1 else n / d

/-- Exact sum of two finite decimals at the ideal (minimal) exponent. -/
def exactAddDec (a b : Dec) : Dec :=
  let e := min a.exp b.exp
  ⟨a.coeff * 10 ^ (a.exp - e).toNat + b.coeff * 10 ^ (b.exp - e).toNat, e⟩

/-- Round a finite decimal to the context precision of `PREC` significant
digits (half-even), as the default context does after every addition. -/
def ctxRound (x : Dec) : Dec :=
  let n := x.coeff.natAbs
  if numDigits n ≤ PREC then x
  else
    let shift := numDigits n - PREC
    let m := roundHalfEvenNat n (10 ^ shift)
    if numDigits m ≤ PREC then
      ⟨if x.coeff < 0 then -(m : ℤ) else (m : ℤ), x.exp + shift⟩
    else
      ⟨if x.coeff < 0 then -((m / 10 : ℕ) : ℤ) else ((m / 10 : ℕ) : ℤ), x.exp + shift + 1⟩

/-- Default-context decimal addition (`total += result` in the aggregation
loop).  `none` models a raised `InvalidOperation`: a signaling NaN operand, or
adding infinities of opposite signs.  Quiet NaNs propagate without raising. -/
def ctxAdd : DecValue → DecValue → Option DecValue
  | .snan, _ => none
  | _, .snan => none
  | .qnan, _ => some .qnan
  | _, .qnan => some .qnan
  | .inf a, .inf b => if a = b then some (.inf a) else none
  | .inf a, .fin _ => some (.inf a)
  | .fin _, .inf b => some (.inf b)
  | .fin a, .fin b => some (.fin (ctxRound (exactAddDec a b)))

/-- The `quantize` operation on a finite decimal: rescale to the target exponent `-p`,
rounding the coefficient magnitude half-up when digits are dropped; `none`
when the resulting coefficient would be longer than `PREC` digits. -/
def quantizeFin (p : ℤ) (x : Dec) : Option Dec :=
  if -p ≤ x.exp then
    if numDigits (x.coeff * 10 ^ (x.exp - -p).toNat).natAbs ≤ PREC then
      some ⟨x.coeff * 10 ^ (x.exp - -p).toNat, -p⟩
    else none
  else
    if numDigits (roundHalfUpNat x.coeff.natAbs (10 ^ (-p - x.exp).toNat)) ≤ PREC then
      some ⟨if x.coeff < 0 then
              -(roundHalfUpNat x.coeff.natAbs (10 ^ (-p - x.exp).toNat) : ℤ)
            else (roundHalfUpNat x.coeff.natAbs (10 ^ (-p - x.exp).toNat) : ℤ), -p⟩
    else none

/-- Model of `total.quantize(Decimal(10) ** -precision, rounding=ROUND_HALF_UP)` under
the default context: rescale to exponent `-p`, rounding half-up; `none` models
a raised `InvalidOperation` (infinite operand, signaling NaN, or a result
coefficient longer than `PREC` digits).  A quiet NaN quantizes to itself. -/
def quantize (p : ℤ) : DecValue → Option DecValue
  | .snan => none
  | .inf _ => none
  | .qnan => some .qnan
  | .fin x => (quantizeFin p x).map .fin

/-- Rational value of a finite decimal. -/
def decValQ (d : Dec) : ℚ := (d.coeff : ℚ) * (10 : ℚ) ^ d.exp

/-- Specification-side rounding: round a rational to `p` fractional digits
with round-half-up rounding (ties away from zero), following the spec's words
"round the total to the configured decimal precision using round-half-up
rounding". -/
def roundHalfUpQ (p : ℤ) (q : ℚ) : ℚ :=
  ((if q * (10 : ℚ) ^ p < 0 then -⌊-(q * (10 : ℚ) ^ p) + 1/2⌋
    else ⌊q * (10 : ℚ) ^ p + 1/2⌋ : ℤ) : ℚ) * (10 : ℚ) ^ (-p)

/-! Section: Parsing, modelling `decimal.Decimal(value_clean)` -/

/-- ASCII digit test (the `\d` of the decimal literal grammar). -/
def isAsciiDigit (ch : Char) : Bool := '0' ≤ ch && ch ≤ '9'

/-- Numeric value of a digit character. -/
def digitVal (ch : Char) : ℕ := ch.toNat - '0'.toNat

/-- Numeric value of a digit string. -/
def digitsToNat (l : List Char) : ℕ := l.foldl (fun a ch => 10*a + digitVal ch) 0

/-- Parse the optional exponent part `(e[+-]?digits)?` at the end of a
lowercased literal; `none` when trailing characters fail to match. -/
def parseExpPart : List Char → Option ℤ
  | [] => some 0
  | 'e' :: rest =>
    let (sgn, rest2) : ℤ × List Char :=
      match rest with
      | '+' :: r => (1, r)
      | '-' :: r => (-1, r)
      | r => (1, r)
    let ds := rest2.takeWhile isAsciiDigit
    if ds ≠ [] ∧ rest2.dropWhile isAsciiDigit = [] then some (sgn * (digitsToNat ds : ℤ))
    else none
  | _ => none

/-- Parse the numeric body `(?=\d|\.\d) \d* (\.\d*)? (e[+-]?\d+)?` of a
lowercased, unsigned literal into coefficient and exponent. -/
def parseNumericBody (l : List Char) : Option Dec :=
  let ip := l.takeWhile isAsciiDigit
  let r1 := l.dropWhile isAsciiDigit
  match r1 with
  | '.' :: rest =>
    let fp := rest.takeWhile isAsciiDigit
    let r2 := rest.dropWhile isAsciiDigit
    if ip = [] ∧ fp = [] then none
    else
      match parseExpPart r2 with
      | some e => some ⟨(digitsToNat (ip ++ fp) : ℤ), e - fp.length⟩
      | none => none
  | _ =>
    if ip = [] then none
    else
      match parseExpPart r1 with
      | some e => some ⟨(digitsToNat ip : ℤ), e⟩
      | none => none

/-- Parse an unsigned, lowercased decimal literal body: a numeric string, an
infinity (`inf` / `infinity`), or a (signaling) NaN with optional diagnostic
digits. -/
def parseBody (l : List Char) : Option DecValue :=
  match parseNumericBody l with
  | some d => some (.fin d)
  | none =>
    if l = "inf".data ∨ l = "infinity".data then some (.inf false)
    else if l.take 3 = "nan".data ∧ (l.drop 3).all isAsciiDigit then some .qnan
    else if l.take 4 = "snan".data ∧ (l.drop 4).all isAsciiDigit then some .snan
    else none

/-- Apply a leading `-` sign to a parsed value. -/
def negValue : DecValue → DecValue
  | .fin d => .fin ⟨-d.coeff, d.exp⟩
  | .inf _ => .inf true
  | .qnan => .qnan
  | .snan => .snan

/-- The `decimal.Decimal` string conversion on an already-stripped string:
underscores are removed, letters fold to lower case, then an optional sign
followed by a numeric body, infinity or NaN must span the whole string.
`none` models a raised `InvalidOperation`. -/
def parseDecimal (s : String) : Option DecValue :=
  let l := (s.data.filter (fun ch => ch ≠ '_')).map Char.toLower
  match l with
  | '+' :: rest => parseBody rest
  | '-' :: rest => (parseBody rest).map negValue
  | rest => parseBody rest

/-! Section: Validator (`NumberValidator`) -/

/-- The `NumberType` enumeration of src/add.py. -/
inductive NumberType
  | INTEGER
  | FLOAT
  | DECIMAL
deriving DecidableEq

/-- Outcome of `NumberValidator.validate`: the Python triple
`(True, num, num_type)` or `(False, message, None)`. -/
inductive ValResult
  | ok (value : DecValue) (numType : NumberType)
  | err (msg : String)
deriving DecidableEq

/-- The reserved non-finite spellings rejected by the validator
(src/add.py:70). -/
def reserved : List String := ["nan", "inf", "-inf"]

/-- Type detection of src/add.py:76-81, on the stripped literal. -/
def detectType (c : String) : NumberType :=
  if ¬ strHasChar c '.' ∧ ¬ strHasChar (strLower c) 'e' then .INTEGER
  else if strHasChar (strLower c) 'e' then .FLOAT
  else .DECIMAL

/-- Core of `NumberValidator.validate` on an already-stripped input: reject the empty
string and the reserved non-finite spellings, otherwise parse as `Decimal`
and classify; parse failure yields the message embedding the stripped text
(src/add.py:66-87). -/
def validateCore (c : String) : ValResult :=
  if c = "" ∨ reserved.contains (strLower c) then .err ("Invalid number: " ++ c)
  else
    match parseDecimal c with
    | some v => .ok v (detectType c)
    | none => .err ("Invalid number: " ++ c)

/-- Model of `NumberValidator.validate` without the cache layer: strip, then validate
(the cache layer is modelled by `validate` below and shown to return the same
outcome). -/
def validateRaw (value : String) : ValResult := validateCore (pyStrip value)

/-- The bound `NumberValidator.MAX_CACHE_SIZE`. -/
def MAX_CACHE_SIZE : ℕ := 10000

/-- The validator cache: an insertion-ordered mapping from stripped input to
cached outcome (`NumberValidator._cache`). -/
abbrev Cache : Type := List (String × ValResult)

/-- Dictionary lookup in the cache. -/
def cacheLookup (c : Cache) (k : String) : Option ValResult :=
  match List.find? (fun kv => kv.1 = k) c with
  | some kv => some kv.2
  | none => none

/-- Model of `NumberValidator.validate` (src/add.py:56-94): return the cached outcome
for the stripped key when present; otherwise validate, clear the whole cache
if it has reached `MAX_CACHE_SIZE`, store the outcome and return it. -/
def validate (c : Cache) (value : String) : ValResult × Cache :=
  let key := pyStrip value
  match cacheLookup c key with
  | some r => (r, c)
  | none =>
    let r := validateRaw value
    let c1 := if MAX_CACHE_SIZE ≤ c.length then ([] : Cache) else c
    (r, c1 ++ [(key, r)])

/-! Section: Sources (`InputSource`, `ListSource`, `FileSource`) -/

/-- An `InputSource` as observed by `add_from_source`: the outcome of
`validate_source()`, the class name, the tokens its `read()` iterator yields,
and — when iteration raises after those tokens — the exception's type name
and message. -/
structure SourceModel where
  validOk : Bool
  validMsg : String
  name : String
  tokens : List String
  readError : Option (String × String)
deriving DecidableEq

/-- A `ListSource` over a list of strings (src/add.py:111-126): the source is
invalid exactly when the list is empty (the non-sequence branch of
`validate_source` cannot arise for a list), and `read` yields each element;
`str` of a string is the string itself. -/
def listSource (numbers : List String) : SourceModel :=
  { validOk := numbers ≠ []
    validMsg := if numbers = [] then "List is empty" else "Valid"
    name := "ListSource"
    tokens := numbers
    readError := none }

/-- The record-and-column selection loop of the intended `FileSource.read`
(src/add.py:151-163), over the already-parsed records of the file: optionally
discard the header record, then for each record with the column index in
range yield the stripped cell unless it strips to empty; out-of-range records
are skipped (with a logged warning). -/
def fileReadRows (rows : List (List String)) (columnIndex : ℕ) (skipHeader : Bool) :
    List String :=
  let rows1 := if skipHeader then rows.drop 1 else rows
  rows1.foldr
    (fun row acc =>
      if columnIndex < row.length then
        let v := pyStrip (row.getD columnIndex "")
        if v = "" then acc else v :: acc
      else acc)
    []

/-! Section: Aggregator (`AdditionService.add_from_source`) -/

/-- The `OperationStatus` enumeration of src/add.py. -/
inductive OperationStatus
  | SUCCESS
  | FAILURE
  | PARTIAL
deriving DecidableEq

/-- The per-`NumberType` tally (`type_counts` dictionary). -/
structure TypeCounts where
  integer : ℕ
  float : ℕ
  decimal : ℕ
deriving DecidableEq

/-- All-zero tally (src/add.py:200). -/
def zeroCounts : TypeCounts := ⟨0, 0, 0⟩

/-- Increment the tally entry for a number type (src/add.py:215). -/
def bumpType (tc : TypeCounts) : NumberType → TypeCounts
  | .INTEGER => { tc with integer := tc.integer + 1 }
  | .FLOAT => { tc with float := tc.float + 1 }
  | .DECIMAL => { tc with decimal := tc.decimal + 1 }

/-- The `OperationResult` record (src/add.py:37-47) without the pure wall-clock
measurement `execution_time`; `numberTypes = none` models the dataclass
default `number_types=None` used by the exception-path results. -/
structure OperationResult where
  status : OperationStatus
  result : Option DecValue
  errorMessage : String
  processedCount : ℕ
  failedCount : ℕ
  numberTypes : Option TypeCounts
  source : String
deriving DecidableEq

/-- An exception aborting the streaming loop: the dedicated `TimeoutError`
(whose bare message becomes the error message), or any other exception with
its type name and message (formatted as `type: message`). -/
inductive Exn
  | timeoutExn (msg : String)
  | otherExn (kind : String) (msg : String)
deriving DecidableEq

/-- The message of a raised `decimal.InvalidOperation` (its Python `str`
renders as a bracketed class reference; the exact text is irrelevant to every
claim, only the `InvalidOperation` exception type name is). -/
def invalidOperationMsg : String := "[<class decimal.InvalidOperation>]"

/-- Mutable state of the aggregation loop (src/add.py:196-200): running
total, processed and failed counters, error-message list and type tally. -/
structure LoopState where
  total : DecValue
  processed : ℕ
  failed : ℕ
  errors : List String
  typeCounts : TypeCounts
deriving DecidableEq

/-- Initial loop state: `total = Decimal(0)`, zero counters, no errors. -/
def initState : LoopState := ⟨.fin ⟨0, 0⟩, 0, 0, [], zeroCounts⟩

deriving instance DecidableEq for Except

/-- Aggregator configuration (`AdditionService.__init__`): the rounding
precision, the timeout bound, and the textual rendering of the timeout used
inside the `TimeoutError` message. -/
structure Config where
  precision : ℤ
  timeout : ℚ
  timeoutRepr : String

/-- The default service configuration (`precision=2, timeout=30.0`). -/
def cfgDefault : Config := ⟨2, 30, "30.0"⟩

/-- The streaming loop of `add_from_source` (src/add.py:203-218) over the
tokens yielded from index `idx` on.  `clock i` is the elapsed wall-clock time
observed by the timeout check that precedes the processing of token `i`; a
strict excess raises `TimeoutError`.  A valid token is added to the running
total (a decimal `InvalidOperation` raised by the addition aborts the loop)
and tallied; an invalid token increments the failure counter and appends its
indexed error message.  When the token list is exhausted, a pending iterator
exception (`rerr`) is raised, else the loop completes with the final state. -/
def runLoop (cfg : Config) (clock : ℕ → ℚ) :
    ℕ → LoopState → List String → Option (String × String) → Except Exn LoopState
  | _, st, [], none => .ok st
  | _, _, [], some (k, m) => .error (.otherExn k m)
  | idx, st, value :: rest, rerr =>
    if cfg.timeout < clock idx then
      .error (.timeoutExn ("Operation timeout after " ++ cfg.timeoutRepr ++ "s"))
    else
      match validateRaw value with
      | .ok v t =>
        match ctxAdd st.total v with
        | some total1 =>
          runLoop cfg clock (idx+1)
            { st with total := total1, processed := st.processed + 1,
                      typeCounts := bumpType st.typeCounts t }
            rest rerr
        | none => .error (.otherExn "InvalidOperation" invalidOperationMsg)
      | .err msg =>
        runLoop cfg clock (idx+1)
          { st with failed := st.failed + 1,
                    errors := st.errors ++ ["Index " ++ toString idx ++ ": " ++ msg] }
          rest rerr

/-- The failure result built by the exception handlers of `add_from_source`
(src/add.py:256-273): a `TimeoutError` message is reported bare, any other
exception as `type: message`; counters and the type tally keep their
dataclass defaults. -/
def exnResult (src : SourceModel) : Exn → OperationResult
  | .timeoutExn m => ⟨.FAILURE, none, m, 0, 0, none, src.name⟩
  | .otherExn k m => ⟨.FAILURE, none, k ++ ": " ++ m, 0, 0, none, src.name⟩

/-- Model of `AdditionService.add_from_source` (src/add.py:178-273): validate the
source (failure returns immediately); stream and validate the tokens;
quantize the total to the configured precision with `ROUND_HALF_UP` (a raised
`InvalidOperation` is caught like any other exception); determine the status
from the counters, suppressing the result when no token was processed; any
exception raised on the way is caught and turned into a failure result. -/
def addFromSource (cfg : Config) (clock : ℕ → ℚ) (src : SourceModel) : OperationResult :=
  if ¬ src.validOk then
    ⟨.FAILURE, none, src.validMsg, 0, 0, none, src.name⟩
  else
    match runLoop cfg clock 0 initState src.tokens src.readError with
    | .error e => exnResult src e
    | .ok st =>
      match quantize cfg.precision st.total with
      | none => exnResult src (.otherExn "InvalidOperation" invalidOperationMsg)
      | some totalQ =>
        let statusResult : OperationStatus × Option DecValue :=
          if st.failed = 0 then (.SUCCESS, some totalQ)
          else if st.processed = 0 then (.FAILURE, none)
          else (.PARTIAL, some totalQ)
        ⟨statusResult.1, statusResult.2,
         String.intercalate "; " (st.errors.take 5),
         st.processed, st.failed, some st.typeCounts, src.name⟩

/-- A clock that never advances: models a run far from the timeout bound. -/
def zeroClock : ℕ → ℚ := fun _ => 0

/-! Section: Derived descriptions of a token list -/

/-- The finite decimal a token validates to, when it does. -/
def parsedDec (s : String) : Option Dec :=
  match validateRaw s with
  | .ok (.fin d) _ => some d
  | _ => none

/-- Whether the validator accepts the token. -/
def isValidTok (s : String) : Bool :=
  match validateRaw s with
  | .ok _ _ => true
  | .err _ => false

/-- Whether the token is either rejected or accepted with a finite value
(so that processing it cannot raise inside the decimal arithmetic). -/
def tokenOk (s : String) : Bool :=
  match validateRaw s with
  | .ok (.fin _) _ => true
  | .ok _ _ => false
  | .err _ => true

/-- The indexed error messages the loop accumulates for the invalid tokens of
a list, starting at index `idx`. -/
def mkErrs : ℕ → List String → List String
  | _, [] => []
  | idx, s :: rest =>
    match validateRaw s with
    | .ok _ _ => mkErrs (idx+1) rest
    | .err m => ("Index " ++ toString idx ++ ": " ++ m) :: mkErrs (idx+1) rest

/-- The type tally the loop accumulates over a list of tokens. -/
def tallyTypes : TypeCounts → List String → TypeCounts
  | tc, [] => tc
  | tc, s :: rest =>
    match validateRaw s with
    | .ok _ t => tallyTypes (bumpType tc t) rest
    | .err _ => tallyTypes tc rest

/-- Exact (unrounded) left fold of decimal addition. -/
def exactFold : Dec → List Dec → Dec
  | acc, [] => acc
  | acc, d :: ds => exactFold (exactAddDec acc d) ds

/-- Every intermediate exact sum of the fold stays within the context
precision, so that default-context addition loses nothing. -/
def noCtxRounding : Dec → List Dec → Bool
  | _, [] => true
  | acc, d :: ds =>
    decide (numDigits (exactAddDec acc d).coeff.natAbs ≤ PREC) &&
      noCtxRounding (exactAddDec acc d) ds

/-! Section: Loop lemmas -/

/-- A context round-trip is the identity on coefficients within precision. -/
theorem ctxRound_eq_self (x : Dec) (h : numDigits x.coeff.natAbs ≤ PREC) :
    ctxRound x = x := by
  unfold ctxRound
  simp [h]

/-- Every token yielded before a normal loop exit is counted exactly once,
as processed or as failed. -/
theorem runLoop_counts (cfg : Config) (clock : ℕ → ℚ) :
    ∀ (numbers : List String) (rerr : Option (String × String)) (idx : ℕ)
      (st st' : LoopState),
    runLoop cfg clock idx st numbers rerr = .ok st' →
    st'.processed + st'.failed = st.processed + st.failed + numbers.length := by
  intro numbers
  induction numbers with
  | nil =>
    intro rerr idx st st' h
    cases rerr with
    | none => cases h; simp
    | some km => cases km; cases h
  | cons s rest ih =>
    intro rerr idx st st' h
    rw [runLoop] at h
    split at h
    · cases h
    · split at h
      · split at h
        · have := ih rerr (idx+1) _ st' h
          simp only at this
          simp [List.length_cons]
          omega
        · cases h
      · have := ih rerr (idx+1) _ st' h
        simp only at this
        simp [List.length_cons]
        omega

/-- Streaming a concatenation runs the first part, then the second from the
shifted index. -/
theorem runLoop_append (cfg : Config) (clock : ℕ → ℚ) :
    ∀ (l1 l2 : List String) (idx : ℕ) (st : LoopState)
      (rerr : Option (String × String)),
    runLoop cfg clock idx st (l1 ++ l2) rerr =
      (match runLoop cfg clock idx st l1 none with
       | .ok st1 => runLoop cfg clock (idx + l1.length) st1 l2 rerr
       | .error e => .error e) := by
  intro l1
  induction l1 with
  | nil =>
    intro l2 idx st rerr
    simp [runLoop]
  | cons s rest ih =>
    intro l2 idx st rerr
    rw [List.cons_append, runLoop, runLoop]
    split
    · rfl
    · split
      · split
        · rw [ih]
          have : idx + (s :: rest).length = (idx + 1) + rest.length := by
            simp [List.length_cons]; omega
          rw [this]
        · rfl
      · rw [ih]
        have : idx + (s :: rest).length = (idx + 1) + rest.length := by
          simp [List.length_cons]; omega
        rw [this]

/-- Characterization of a loop run over tokens that are each either invalid
or finite-valued, when the clock never trips and no intermediate sum needs
context rounding: the loop completes, the total is the exact decimal fold of
the parsed values, the counters count the valid and invalid tokens, and the
error list and type tally accumulate per token. -/
theorem runLoop_ok_char (cfg : Config) (clock : ℕ → ℚ) :
    ∀ (numbers : List String) (idx : ℕ) (st : LoopState) (acc : Dec),
    (∀ i, i < numbers.length → clock (idx + i) ≤ cfg.timeout) →
    (∀ s ∈ numbers, tokenOk s = true) →
    st.total = .fin acc →
    noCtxRounding acc (numbers.filterMap parsedDec) = true →
    runLoop cfg clock idx st numbers none =
      .ok ⟨.fin (exactFold acc (numbers.filterMap parsedDec)),
           st.processed + numbers.countP isValidTok,
           st.failed + numbers.countP (fun s => !isValidTok s),
           st.errors ++ mkErrs idx numbers,
           tallyTypes st.typeCounts numbers⟩ := by
  intro numbers
  induction numbers with
  | nil =>
    intro idx st acc _ _ hst _
    cases st with
    | mk total p f e tc =>
      simp only at hst
      subst hst
      simp [runLoop, exactFold, mkErrs, tallyTypes]
  | cons s rest ih =>
    intro idx st acc hclock htok hst hnr
    have hcl0 : ¬ (cfg.timeout < clock idx) := by
      have h0 := hclock 0 (by simp)
      simp only [Nat.add_zero] at h0
      exact not_lt.mpr h0
    have hclock1 : ∀ i, i < rest.length → clock ((idx + 1) + i) ≤ cfg.timeout := by
      intro i hi
      have := hclock (i+1) (by simp [List.length_cons]; omega)
      have harith : idx + (i+1) = (idx + 1) + i := by omega
      rwa [harith] at this
    rw [runLoop, if_neg hcl0]
    cases hv : validateRaw s with
    | ok v t =>
      have hfin : ∃ d, v = .fin d := by
        have := htok s (List.mem_cons_self s rest)
        unfold tokenOk at this
        rw [hv] at this
        cases v with
        | fin d => exact ⟨d, rfl⟩
        | inf b => simp at this
        | qnan => simp at this
        | snan => simp at this
      obtain ⟨d, rfl⟩ := hfin
      have hpd : parsedDec s = some d := by unfold parsedDec; rw [hv]
      have hfm : (s :: rest).filterMap parsedDec = d :: rest.filterMap parsedDec := by
        rw [List.filterMap_cons, hpd]
      rw [hfm] at hnr
      rw [noCtxRounding] at hnr
      have hdg : numDigits (exactAddDec acc d).coeff.natAbs ≤ PREC := by
        have := (Bool.and_eq_true _ _).mp hnr
        exact of_decide_eq_true this.1
      have hnr1 : noCtxRounding (exactAddDec acc d) (rest.filterMap parsedDec) = true :=
        ((Bool.and_eq_true _ _).mp hnr).2
      rw [hst]
      simp only [ctxAdd]
      rw [ctxRound_eq_self _ hdg]
      have ihr := ih (idx+1)
        { st with total := .fin (exactAddDec acc d), processed := st.processed + 1,
                  typeCounts := bumpType st.typeCounts t }
        (exactAddDec acc d) hclock1
        (fun x hx => htok x (List.mem_cons_of_mem s hx)) rfl hnr1
      rw [ihr]
      have hval : isValidTok s = true := by unfold isValidTok; rw [hv]
      have hcount : (s :: rest).countP isValidTok = rest.countP isValidTok + 1 := by
        rw [List.countP_cons, hval]
        simp
      have hcount2 : (s :: rest).countP (fun x => !isValidTok x)
          = rest.countP (fun x => !isValidTok x) := by
        rw [List.countP_cons]
        simp [hval]
      have hme : mkErrs idx (s :: rest) = mkErrs (idx+1) rest := by
        rw [mkErrs, hv]
      have hta : tallyTypes st.typeCounts (s :: rest)
          = tallyTypes (bumpType st.typeCounts t) rest := by
        rw [tallyTypes, hv]
      rw [hfm, exactFold, hcount, hcount2, hme, hta]
      dsimp only
      simp only [Except.ok.injEq, LoopState.mk.injEq, true_and, and_true]
      omega
    | err m =>
      dsimp only
      have hpd : parsedDec s = none := by unfold parsedDec; rw [hv]
      have hfm : (s :: rest).filterMap parsedDec = rest.filterMap parsedDec := by
        rw [List.filterMap_cons, hpd]
      rw [hfm] at hnr
      have ihr := ih (idx+1)
        { st with failed := st.failed + 1,
                  errors := st.errors ++ ["Index " ++ toString idx ++ ": " ++ m] }
        acc hclock1 (fun x hx => htok x (List.mem_cons_of_mem s hx)) hst hnr
      rw [ihr]
      have hval : isValidTok s = false := by unfold isValidTok; rw [hv]
      have hcount : (s :: rest).countP isValidTok = rest.countP isValidTok := by
        rw [List.countP_cons, hval]
        simp
      have hcount2 : (s :: rest).countP (fun x => !isValidTok x)
          = rest.countP (fun x => !isValidTok x) + 1 := by
        rw [List.countP_cons]
        simp [hval]
      have hme : mkErrs idx (s :: rest)
          = ("Index " ++ toString idx ++ ": " ++ m) :: mkErrs (idx+1) rest := by
        rw [mkErrs, hv]
      have hta : tallyTypes st.typeCounts (s :: rest) = tallyTypes st.typeCounts rest := by
        rw [tallyTypes, hv]
      rw [hfm, hcount, hcount2, hme, hta]
      dsimp only
      simp only [Except.ok.injEq, LoopState.mk.injEq, List.append_assoc,
        List.singleton_append, true_and, and_true]
      omega

/-! Section: Value lemmas: the decimal model against exact rational arithmetic -/

/-- A natural power of ten as an integer power. -/
theorem zpow_toNat (k : ℤ) (h : 0 ≤ k) : ((10:ℚ) ^ k.toNat) = (10:ℚ) ^ k := by
  rw [← zpow_natCast (10:ℚ) k.toNat, Int.toNat_of_nonneg h]

/-- Splitting a power of ten at an exponent below the target. -/
theorem zpow_toNat_mul (x e : ℤ) (h : e ≤ x) :
    (10:ℚ) ^ ((x - e).toNat) * (10:ℚ) ^ e = (10:ℚ) ^ x := by
  rw [zpow_toNat (x - e) (by omega), ← zpow_add₀ (by norm_num : (10:ℚ) ≠ 0)]
  congr 1
  omega

/-- The exact decimal sum has the exact rational value. -/
theorem exactAddDec_val (a b : Dec) :
    decValQ (exactAddDec a b) = decValQ a + decValQ b := by
  unfold exactAddDec decValQ
  dsimp only
  push_cast
  rw [add_mul, mul_assoc, mul_assoc,
    zpow_toNat_mul _ _ (min_le_left a.exp b.exp),
    zpow_toNat_mul _ _ (min_le_right a.exp b.exp)]

/-- The exact decimal fold has the exact rational sum as its value. -/
theorem exactFold_val : ∀ (ds : List Dec) (acc : Dec),
    decValQ (exactFold acc ds) = decValQ acc + (ds.map decValQ).sum
  | [], acc => by simp [exactFold]
  | d :: ds, acc => by
    show decValQ (exactFold (exactAddDec acc d) ds) = _
    rw [exactFold_val ds (exactAddDec acc d), exactAddDec_val]
    simp only [List.map_cons, List.sum_cons]
    ring

/-- The floor of one half. -/
theorem floor_half_rat : ⌊(1/2 : ℚ)⌋ = 0 := by
  apply Int.floor_eq_iff.mpr
  norm_num

/-- Adding one half to an integer floors back to the integer. -/
theorem floor_int_add_half (n : ℤ) : ⌊(n:ℚ) + 1/2⌋ = n := by
  rw [add_comm, Int.floor_add_int, floor_half_rat, zero_add]

/-- The half-up rounding of a nonnegative quotient, as a floor. -/
theorem floor_div_add_half (N d : ℕ) (hd : 0 < d) :
    ⌊(N:ℚ)/(d:ℚ) + 1/2⌋ = (roundHalfUpNat N d : ℤ) := by
  have hd0 : (0:ℚ) < (d:ℚ) := by exact_mod_cast hd
  have hmod : N % d < d := Nat.mod_lt _ hd
  have hsplit : (N:ℚ) = (d:ℚ) * ((N / d : ℕ):ℚ) + ((N % d : ℕ):ℚ) := by
    exact_mod_cast (Nat.div_add_mod N d).symm
  have hdiv : (N:ℚ)/(d:ℚ) = ((N / d : ℕ):ℚ) + ((N % d : ℕ):ℚ)/(d:ℚ) := by
    rw [hsplit, add_div, mul_div_cancel_left₀ _ (ne_of_gt hd0)]
  have hcast : ((N / d : ℕ):ℚ) = (((N / d : ℕ) : ℤ):ℚ) := (Int.cast_natCast _).symm
  rw [hdiv, add_assoc, hcast, add_comm ((((N / d : ℕ) : ℤ)):ℚ) _, Int.floor_add_int]
  by_cases hc : d ≤ 2 * (N % d)
  · have h1 : ⌊((N % d : ℕ):ℚ)/(d:ℚ) + 1/2⌋ = 1 := by
      apply Int.floor_eq_iff.mpr
      constructor
      · have hge : (1:ℚ)/2 ≤ ((N % d : ℕ):ℚ)/(d:ℚ) := by
          rw [div_le_div_iff₀ (by norm_num) hd0]
          have : (d:ℚ) ≤ 2 * ((N % d : ℕ):ℚ) := by exact_mod_cast hc
          linarith
        push_cast
        linarith
      · have hlt : ((N % d : ℕ):ℚ)/(d:ℚ) < 1 := by
          rw [div_lt_one hd0]
          exact_mod_cast hmod
        push_cast
        linarith
    rw [h1]
    unfold roundHalfUpNat
    rw [if_pos hc]
    push_cast
    ring
  · have h0 : ⌊((N % d : ℕ):ℚ)/(d:ℚ) + 1/2⌋ = 0 := by
      apply Int.floor_eq_iff.mpr
      constructor
      · have hge : (0:ℚ) ≤ ((N % d : ℕ):ℚ)/(d:ℚ) := by positivity
        push_cast
        linarith
      · have hlt : ((N % d : ℕ):ℚ)/(d:ℚ) < 1/2 := by
          rw [div_lt_div_iff₀ hd0 (by norm_num)]
          have : 2 * ((N % d : ℕ):ℚ) < (d:ℚ) := by
            exact_mod_cast Nat.lt_of_not_le hc
          linarith
        push_cast
        linarith
    rw [h0]
    unfold roundHalfUpNat
    rw [if_neg hc]
    push_cast
    ring

/-- A successful `quantizeFin` computes exactly the spec-side half-up rounding
of the operand's rational value to `p` fractional digits. -/
theorem quantizeFin_val (p : ℤ) (x q : Dec) (h : quantizeFin p x = some q) :
    decValQ q = roundHalfUpQ p (decValQ x) := by
  unfold quantizeFin at h
  by_cases ht : -p ≤ x.exp
  · rw [if_pos ht] at h
    by_cases hdg : numDigits (x.coeff * 10 ^ (x.exp - -p).toNat).natAbs ≤ PREC
    · rw [if_pos hdg] at h
      injection h with h
      subst h
      have hsc : decValQ x * (10:ℚ) ^ p = ((x.coeff * 10 ^ (x.exp - -p).toNat : ℤ):ℚ) := by
        rw [decValQ]
        push_cast
        rw [zpow_toNat (x.exp - -p) (by omega), mul_assoc,
          ← zpow_add₀ (by norm_num : (10:ℚ) ≠ 0)]
        congr 2
        omega
      rw [roundHalfUpQ, hsc]
      have hif : (if ((x.coeff * 10 ^ (x.exp - -p).toNat : ℤ):ℚ) < 0 then
            -⌊-((x.coeff * 10 ^ (x.exp - -p).toNat : ℤ):ℚ) + 1/2⌋
          else ⌊((x.coeff * 10 ^ (x.exp - -p).toNat : ℤ):ℚ) + 1/2⌋)
          = x.coeff * 10 ^ (x.exp - -p).toNat := by
        by_cases hc0 : ((x.coeff * 10 ^ (x.exp - -p).toNat : ℤ):ℚ) < 0
        · rw [if_pos hc0,
            show -((x.coeff * 10 ^ (x.exp - -p).toNat : ℤ):ℚ)
              = ((-(x.coeff * 10 ^ (x.exp - -p).toNat) : ℤ):ℚ) by push_cast; ring,
            floor_int_add_half]
          ring
        · rw [if_neg hc0, floor_int_add_half]
      rw [hif, decValQ]
    · rw [if_neg hdg] at h
      cases h
  · rw [if_neg ht] at h
    by_cases hdg : numDigits (roundHalfUpNat x.coeff.natAbs (10 ^ (-p - x.exp).toNat)) ≤ PREC
    · rw [if_pos hdg] at h
      injection h with h
      subst h
      have hshz : (((-p - x.exp).toNat : ℕ) : ℤ) = -p - x.exp :=
        Int.toNat_of_nonneg (by omega)
      have hdpos : (0:ℕ) < 10 ^ (-p - x.exp).toNat := pow_pos (by norm_num) _
      have hdq : ((10 ^ (-p - x.exp).toNat : ℕ) : ℚ) = (10:ℚ) ^ ((-p - x.exp).toNat : ℕ) := by
        push_cast
        ring
      have hsc : decValQ x * (10:ℚ) ^ p
          = (x.coeff : ℚ) / ((10 ^ (-p - x.exp).toNat : ℕ) : ℚ) := by
        rw [decValQ, hdq, mul_assoc, ← zpow_add₀ (by norm_num : (10:ℚ) ≠ 0)]
        rw [← zpow_natCast (10:ℚ) ((-p - x.exp).toNat : ℕ), hshz]
        rw [div_eq_mul_inv, ← zpow_neg]
        congr 2
        omega
      by_cases hneg : x.coeff < 0
      · have habs : ((x.coeff.natAbs : ℕ) : ℚ) = -(x.coeff : ℚ) := by
          rw [Int.cast_natAbs, abs_of_neg hneg]
          push_cast
          ring
        have hlt : decValQ x * (10:ℚ) ^ p < 0 := by
          rw [hsc]
          apply div_neg_of_neg_of_pos
          · exact_mod_cast hneg
          · exact_mod_cast hdpos
        rw [roundHalfUpQ, if_pos hlt]
        have hnegsc : -(decValQ x * (10:ℚ) ^ p)
            = ((x.coeff.natAbs : ℕ) : ℚ) / ((10 ^ (-p - x.exp).toNat : ℕ) : ℚ) := by
          rw [hsc, habs]
          ring
        rw [hnegsc, floor_div_add_half _ _ hdpos]
        rw [if_pos hneg, decValQ]
      · have habs : ((x.coeff.natAbs : ℕ) : ℚ) = (x.coeff : ℚ) := by
          rw [Int.cast_natAbs, abs_of_nonneg (Int.not_lt.mp hneg)]
        have hge : ¬ decValQ x * (10:ℚ) ^ p < 0 := by
          rw [hsc]
          apply not_lt.mpr
          apply div_nonneg
          · exact_mod_cast Int.not_lt.mp hneg
          · positivity
        rw [roundHalfUpQ, if_neg hge]
        have hscn : decValQ x * (10:ℚ) ^ p
            = ((x.coeff.natAbs : ℕ) : ℚ) / ((10 ^ (-p - x.exp).toNat : ℕ) : ℚ) := by
          rw [hsc, habs]
        rw [hscn, floor_div_add_half _ _ hdpos]
        rw [if_neg hneg, decValQ]
    · rw [if_neg hdg] at h
      cases h

/-- A successful `quantize` of a finite decimal produces a finite decimal
whose value is the spec-side half-up rounding. -/
theorem quantize_val (p : ℤ) (x q : Dec)
    (h : quantize p (.fin x) = some (.fin q)) :
    decValQ q = roundHalfUpQ p (decValQ x) := by
  apply quantizeFin_val p x q
  simp only [quantize] at h
  cases hq : quantizeFin p x with
  | none => rw [hq] at h; cases h
  | some q2 =>
    rw [hq] at h
    simp only [Option.map_some'] at h
    injection h with h
    injection h with h
    rw [h]

/-! Section: Cache lemmas -/

/-- Lookup steps through one cache entry. -/
theorem cacheLookup_cons (kv : String × ValResult) (l : Cache) (k : String) :
    cacheLookup (kv :: l) k = if kv.1 = k then some kv.2 else cacheLookup l k := by
  unfold cacheLookup
  rw [List.find?_cons]
  by_cases hk : kv.1 = k
  · simp [hk]
  · simp [hk]

/-- Lookup in a concatenation tries the left part first. -/
theorem cacheLookup_append (l1 l2 : Cache) (k : String) :
    cacheLookup (l1 ++ l2) k =
      (match cacheLookup l1 k with
       | some r => some r
       | none => cacheLookup l2 k) := by
  induction l1 with
  | nil => simp [cacheLookup]
  | cons kv l1 ih =>
    rw [List.cons_append, cacheLookup_cons, cacheLookup_cons]
    by_cases hk : kv.1 = k
    · simp [hk]
    · simp [hk, ih]

/-- A cache is consistent when every stored outcome is the raw validation of
its (already stripped) key.  The empty cache is consistent, and `validate`
preserves consistency, so every reachable cache is consistent. -/
def CacheConsistent (c : Cache) : Prop :=
  ∀ k r, cacheLookup c k = some r → r = validateCore k

/-- Outcome transparency of the cache layer: on any consistent cache,
`NumberValidator.validate` returns exactly the raw (cache-free) outcome, and
the cache stays consistent.  This justifies embedding the aggregation loop
with `validateRaw`. -/
theorem validate_eq_raw (c : Cache) (value : String) (h : CacheConsistent c) :
    (validate c value).1 = validateRaw value ∧ CacheConsistent (validate c value).2 := by
  simp only [validate]
  cases hl : cacheLookup c (pyStrip value) with
  | some r =>
    dsimp only
    exact ⟨h _ _ hl, h⟩
  | none =>
    dsimp only
    refine ⟨rfl, ?_⟩
    intro k r hk
    rw [cacheLookup_append] at hk
    have hc1 : CacheConsistent (if MAX_CACHE_SIZE ≤ c.length then ([] : Cache) else c) := by
      split
      · intro k2 r2 hk2
        simp [cacheLookup] at hk2
      · exact h
    cases hcase : cacheLookup (if MAX_CACHE_SIZE ≤ c.length then ([] : Cache) else c) k with
    | some r2 =>
      rw [hcase] at hk
      injection hk with hk
      exact hk ▸ hc1 _ _ hcase
    | none =>
      rw [hcase] at hk
      rw [cacheLookup_cons] at hk
      by_cases hkk : pyStrip value = k
      · rw [if_pos hkk] at hk
        injection hk with hk
        rw [← hk, ← hkk]
        rfl
      · rw [if_neg hkk] at hk
        simp [cacheLookup] at hk

/-! Section: Claim C9 -/

/-- C9: validation is idempotent.  After any call of the cached validator the
stripped literal is present in the cache with the returned outcome, and a
second call on the same literal (valid or invalid) is a cache hit returning
the identical outcome and leaving the cache unchanged. -/
theorem C9_validate_idempotent (c : Cache) (value : String) :
    cacheLookup (validate c value).2 (pyStrip value) = some (validate c value).1 ∧
    validate (validate c value).2 value = ((validate c value).1, (validate c value).2) := by
  have hmain : cacheLookup (validate c value).2 (pyStrip value)
      = some (validate c value).1 := by
    simp only [validate]
    cases hl : cacheLookup c (pyStrip value) with
    | some r =>
      dsimp only
      exact hl
    | none =>
      dsimp only
      rw [cacheLookup_append]
      have hnone : cacheLookup (if MAX_CACHE_SIZE ≤ c.length then ([] : Cache) else c)
          (pyStrip value) = none := by
        split
        · rfl
        · exact hl
      rw [hnone, cacheLookup_cons]
      simp
  refine ⟨hmain, ?_⟩
  rcases hpr : validate c value with ⟨r0, c2⟩
  rw [hpr] at hmain
  simp only at hmain ⊢
  simp only [validate, hmain]

/-! Section: Claim C10 -/

/-- C10: the reserved non-finite rejection covers only the exact spellings
`nan`, `inf`, `-inf` (case-insensitively): the spellings `Infinity` and
`+inf` are accepted as valid with the non-finite value `+Infinity` classified
as `NumberType.INTEGER`, and streaming such a token adds the non-finite value
into the running total (the state after processing `["Infinity"]` holds
`total = Infinity` with `processed = 1`). -/
theorem C10_nonfinite_spellings :
    validateRaw "Infinity" = .ok (.inf false) .INTEGER ∧
    validateRaw "+inf" = .ok (.inf false) .INTEGER ∧
    runLoop cfgDefault zeroClock 0 initState ["Infinity"] none =
      .ok ⟨.inf false, 1, 0, [], ⟨1, 0, 0⟩⟩ := by decide

/-! Section: Claim C8 -/

/-- The `FileSource` of the C8 scenario as the code stands: `validate_source`
passes (the path exists, has suffix `.csv` and positive size), but `read`
(src/add.py:146-167) references the name `csv`, which src/add.py never
imports, so its first iteration step raises `NameError` (message
`name 'csv' is not defined`; the quotes around csv are omitted here) before
yielding any token. -/
def fileSourceC8 : SourceModel :=
  ⟨true, "Valid", "FileSource", [], some ("NameError", "name csv is not defined")⟩

/-- The records of the C8 file: header `a,b`, then `1,10` and `2,20`. -/
def rowsC8 : List (List String) := [["a", "b"], ["1", "10"], ["2", "20"]]

/-- C8 (code bug): with the missing `import csv`, aggregating the two-column
CSV with `column_index=1`, `skip_header=True` and precision 0 returns a
`NameError` failure with no result — whereas the intended record loop of
`FileSource.read` over those records yields exactly `["10", "20"]`, which
aggregates to `30` with status Success. -/
theorem C8_missing_csv_import :
    addFromSource ⟨0, 30, "30.0"⟩ zeroClock fileSourceC8 =
      ⟨.FAILURE, none, "NameError: name csv is not defined", 0, 0, none, "FileSource"⟩ ∧
    fileReadRows rowsC8 1 true = ["10", "20"] ∧
    addFromSource ⟨0, 30, "30.0"⟩ zeroClock
        ⟨true, "Valid", "FileSource", fileReadRows rowsC8 1 true, none⟩ =
      ⟨.SUCCESS, some (.fin ⟨30, 0⟩), "", 2, 0, some ⟨2, 0, 0⟩, "FileSource"⟩ := by
  decide

/-! Section: Claim C4 -/

/-- Specification-side type classification, in the spec's decision order:
exponent marker present (the letter `e`, case-insensitively) gives Float; a
decimal point without exponent gives Decimal; otherwise Integer. -/
def specClassify (c : String) : NumberType :=
  if strHasChar (strLower c) 'e' then .FLOAT
  else if strHasChar c '.' then .DECIMAL
  else .INTEGER

/-- The code's type detection (src/add.py:76-81) agrees with the spec's
decision order on every string. -/
theorem detectType_eq_specClassify (c : String) : detectType c = specClassify c := by
  unfold detectType specClassify
  by_cases hE : strHasChar (strLower c) 'e'
  · by_cases hD : strHasChar c '.'
    · simp [hE, hD]
    · simp [hE, hD]
  · by_cases hD : strHasChar c '.'
    · simp [hE, hD]
    · simp [hE, hD]

/-- C4: for every input string the validator strips whitespace and is invalid
exactly when the stripped string is empty, case-insensitively equals one of
the reserved spellings `nan`, `inf`, `-inf`, or fails to parse as an exact
decimal; on failure the message embeds the stripped text, and on success the
returned value is the parsed decimal with the type classified as Float when
an exponent marker is present, Decimal when a decimal point is present
without an exponent, and Integer otherwise. -/
theorem C4_validator_contract (s : String) :
    ((∃ m, validateRaw s = .err m) ↔
      (pyStrip s = "" ∨ reserved.contains (strLower (pyStrip s)) = true ∨
        parseDecimal (pyStrip s) = none)) ∧
    (∀ m, validateRaw s = .err m → m = "Invalid number: " ++ pyStrip s) ∧
    (∀ v t, validateRaw s = .ok v t →
      parseDecimal (pyStrip s) = some v ∧ t = specClassify (pyStrip s)) := by
  unfold validateRaw validateCore
  by_cases h1 : pyStrip s = "" ∨ reserved.contains (strLower (pyStrip s)) = true
  · rw [if_pos h1]
    refine ⟨?_, ?_, ?_⟩
    · constructor
      · intro _
        rcases h1 with h | h
        · exact .inl h
        · exact .inr (.inl h)
      · intro _
        exact ⟨_, rfl⟩
    · intro m hm
      injection hm with hm
      exact hm.symm
    · intro v t hvt
      cases hvt
  · rw [if_neg h1]
    cases hp : parseDecimal (pyStrip s) with
    | none =>
      refine ⟨?_, ?_, ?_⟩
      · constructor
        · intro _
          exact .inr (.inr rfl)
        · intro _
          exact ⟨_, rfl⟩
      · intro m hm
        injection hm with hm
        exact hm.symm
      · intro v t hvt
        cases hvt
    | some v0 =>
      refine ⟨?_, ?_, ?_⟩
      · constructor
        · rintro ⟨m, hm⟩
          cases hm
        · intro hcon
          exfalso
          rcases hcon with h | h | h
          · exact h1 (.inl h)
          · exact h1 (.inr h)
          · cases h
      · intro m hm
        cases hm
      · intro v t hvt
        injection hvt with hv ht
        constructor
        · rw [hv]
        · rw [← ht, detectType_eq_specClassify]

/-- C4 witness: a concrete valid literal with sign, point and exponent, run
through the contract. -/
theorem C4_witness :
    validateRaw "-2.5e1" = .ok (.fin ⟨-25, 0⟩) .FLOAT ∧
    parseDecimal (pyStrip "-2.5e1") = some (.fin ⟨-25, 0⟩) ∧
    NumberType.FLOAT = specClassify (pyStrip "-2.5e1") :=
  ⟨by decide,
   ((C4_validator_contract "-2.5e1").2.2 (.fin ⟨-25, 0⟩) .FLOAT (by decide)).1,
   ((C4_validator_contract "-2.5e1").2.2 (.fin ⟨-25, 0⟩) .FLOAT (by decide)).2⟩

/-! Section: Normal-path result lemmas -/

/-- Tokens that all validate produce no error messages. -/
theorem mkErrs_nil (idx : ℕ) (numbers : List String)
    (h : ∀ s ∈ numbers, isValidTok s = true) : mkErrs idx numbers = [] := by
  induction numbers generalizing idx with
  | nil => rfl
  | cons s rest ih =>
    rw [mkErrs]
    cases hv : validateRaw s with
    | ok v t =>
      exact ih (idx + 1) (fun x hx => h x (List.mem_cons_of_mem s hx))
    | err m =>
      exfalso
      have := h s (List.mem_cons_self s rest)
      unfold isValidTok at this
      rw [hv] at this
      cases this

/-- The result record of the normal return path when no token failed. -/
theorem addFromSource_success (cfg : Config) (clock : ℕ → ℚ) (src : SourceModel)
    (st : LoopState) (totalQ : DecValue)
    (hv : src.validOk = true)
    (hr : runLoop cfg clock 0 initState src.tokens src.readError = .ok st)
    (hq : quantize cfg.precision st.total = some totalQ)
    (hf : st.failed = 0) :
    addFromSource cfg clock src =
      ⟨.SUCCESS, some totalQ, String.intercalate "; " (st.errors.take 5),
       st.processed, st.failed, some st.typeCounts, src.name⟩ := by
  unfold addFromSource
  rw [if_neg (by simp [hv]), hr]
  dsimp only
  rw [hq]
  dsimp only
  rw [if_pos hf]

/-- The result record of the normal return path when every token failed. -/
theorem addFromSource_allinvalid (cfg : Config) (clock : ℕ → ℚ) (src : SourceModel)
    (st : LoopState) (totalQ : DecValue)
    (hv : src.validOk = true)
    (hr : runLoop cfg clock 0 initState src.tokens src.readError = .ok st)
    (hq : quantize cfg.precision st.total = some totalQ)
    (hf : ¬ st.failed = 0) (hp : st.processed = 0) :
    addFromSource cfg clock src =
      ⟨.FAILURE, none, String.intercalate "; " (st.errors.take 5),
       st.processed, st.failed, some st.typeCounts, src.name⟩ := by
  unfold addFromSource
  rw [if_neg (by simp [hv]), hr]
  dsimp only
  rw [hq]
  dsimp only
  rw [if_neg hf, if_pos hp]

/-- The result record of the normal return path with both valid and invalid
tokens. -/
theorem addFromSource_mixed (cfg : Config) (clock : ℕ → ℚ) (src : SourceModel)
    (st : LoopState) (totalQ : DecValue)
    (hv : src.validOk = true)
    (hr : runLoop cfg clock 0 initState src.tokens src.readError = .ok st)
    (hq : quantize cfg.precision st.total = some totalQ)
    (hf : ¬ st.failed = 0) (hp : ¬ st.processed = 0) :
    addFromSource cfg clock src =
      ⟨.PARTIAL, some totalQ, String.intercalate "; " (st.errors.take 5),
       st.processed, st.failed, some st.typeCounts, src.name⟩ := by
  unfold addFromSource
  rw [if_neg (by simp [hv]), hr]
  dsimp only
  rw [hq]
  dsimp only
  rw [if_neg hf, if_neg hp]

/-- In every returned result, the result value is present exactly when the
status is Success or Partial. -/
theorem result_presence (cfg : Config) (clock : ℕ → ℚ) (src : SourceModel) :
    (addFromSource cfg clock src).result.isSome = true ↔
      ((addFromSource cfg clock src).status = .SUCCESS ∨
       (addFromSource cfg clock src).status = .PARTIAL) := by
  unfold addFromSource
  split
  · simp
  · split
    · rename_i e _
      cases e <;> simp [exnResult]
    · rename_i st _
      split
      · simp [exnResult]
      · by_cases hf : st.failed = 0
        · simp [hf]
        · by_cases hp : st.processed = 0
          · simp [hf, hp]
          · simp [hf, hp]

/-! Section: Claim C7 -/

/-- C7: `add_from_source` is total — for every configuration, clock and
source (including every failure of the error taxonomy: invalid source,
timeout, mid-stream exception, arithmetic exception, all-tokens-invalid), the
call reaches exactly one of the four return sites, each of which hands back
an `OperationResult` attributed to the source; nothing escapes to the
caller. -/
theorem C7_total_outcomes (cfg : Config) (clock : ℕ → ℚ) (src : SourceModel) :
    (addFromSource cfg clock src).source = src.name ∧
    ((src.validOk = false ∧ addFromSource cfg clock src =
        ⟨.FAILURE, none, src.validMsg, 0, 0, none, src.name⟩) ∨
     (∃ e, runLoop cfg clock 0 initState src.tokens src.readError = .error e ∧
        addFromSource cfg clock src = exnResult src e) ∨
     (∃ st, runLoop cfg clock 0 initState src.tokens src.readError = .ok st ∧
        quantize cfg.precision st.total = none ∧
        addFromSource cfg clock src =
          exnResult src (.otherExn "InvalidOperation" invalidOperationMsg)) ∨
     (∃ st totalQ, runLoop cfg clock 0 initState src.tokens src.readError = .ok st ∧
        quantize cfg.precision st.total = some totalQ ∧
        (addFromSource cfg clock src).processedCount = st.processed ∧
        (addFromSource cfg clock src).failedCount = st.failed)) := by
  by_cases hv : src.validOk = true
  · cases hr : runLoop cfg clock 0 initState src.tokens src.readError with
    | error e =>
      have hres : addFromSource cfg clock src = exnResult src e := by
        unfold addFromSource
        rw [if_neg (by simp [hv]), hr]
      refine ⟨?_, .inr (.inl ⟨e, rfl, hres⟩)⟩
      rw [hres]
      cases e <;> rfl
    | ok st =>
      cases hq : quantize cfg.precision st.total with
      | none =>
        have hres : addFromSource cfg clock src =
            exnResult src (.otherExn "InvalidOperation" invalidOperationMsg) := by
          unfold addFromSource
          rw [if_neg (by simp [hv]), hr]
          dsimp only
          rw [hq]
        refine ⟨?_, .inr (.inr (.inl ⟨st, rfl, hq, hres⟩))⟩
        rw [hres]
        rfl
      | some totalQ =>
        have hres : (addFromSource cfg clock src).processedCount = st.processed ∧
            (addFromSource cfg clock src).failedCount = st.failed ∧
            (addFromSource cfg clock src).source = src.name := by
          unfold addFromSource
          rw [if_neg (by simp [hv]), hr]
          dsimp only
          rw [hq]
          exact ⟨rfl, rfl, rfl⟩
        exact ⟨hres.2.2, .inr (.inr (.inr ⟨st, totalQ, rfl, hq, hres.1, hres.2.1⟩))⟩
  · have hvf : src.validOk = false := by
      cases hb : src.validOk
      · rfl
      · exact absurd hb hv
    have hres : addFromSource cfg clock src =
        ⟨.FAILURE, none, src.validMsg, 0, 0, none, src.name⟩ := by
      unfold addFromSource
      rw [if_pos (by simp [hvf])]
    exact ⟨by rw [hres], .inl ⟨hvf, hres⟩⟩

/-! Section: Claim C5 -/

/-- C5: for every call that validates its source, streams to completion and
quantizes without an exception, the returned counters satisfy
`processed_count + failed_count = number of tokens yielded`. -/
theorem C5_token_accounting (cfg : Config) (clock : ℕ → ℚ) (src : SourceModel)
    (st : LoopState) (totalQ : DecValue)
    (hv : src.validOk = true)
    (hloop : runLoop cfg clock 0 initState src.tokens src.readError = .ok st)
    (hq : quantize cfg.precision st.total = some totalQ) :
    (addFromSource cfg clock src).processedCount
      + (addFromSource cfg clock src).failedCount = src.tokens.length := by
  have hcount := runLoop_counts cfg clock src.tokens src.readError 0 initState st hloop
  simp only [initState] at hcount
  unfold addFromSource
  rw [if_neg (by simp [hv]), hloop]
  dsimp only
  rw [hq]
  dsimp only
  omega

/-- C5 witness: a three-token list with one invalid token accounts for all
three tokens. -/
theorem C5_witness :
    runLoop cfgDefault zeroClock 0 initState ["1", "x", "2"] none =
      .ok ⟨.fin ⟨3, 0⟩, 2, 1, ["Index 1: Invalid number: x"], ⟨2, 0, 0⟩⟩ ∧
    (addFromSource cfgDefault zeroClock (listSource ["1", "x", "2"])).processedCount
      + (addFromSource cfgDefault zeroClock (listSource ["1", "x", "2"])).failedCount
      = (listSource ["1", "x", "2"]).tokens.length :=
  ⟨by decide,
   C5_token_accounting cfgDefault zeroClock (listSource ["1", "x", "2"])
     ⟨.fin ⟨3, 0⟩, 2, 1, ["Index 1: Invalid number: x"], ⟨2, 0, 0⟩⟩ (.fin ⟨300, -2⟩)
     (by decide) (by decide) (by decide)⟩

/-! Section: Claim C6 -/

/-- C6: when the elapsed time observed before some token strictly exceeds the
configured timeout (the earlier checks having passed, witnessed by the
successful run over the prefix), the whole operation aborts: the returned
result is a Failure with no result value and the `TimeoutError` message
naming the timeout, regardless of the partial total and counts accumulated in
`st`. -/
theorem C6_timeout_abort (cfg : Config) (clock : ℕ → ℚ) (src : SourceModel)
    (i : ℕ) (st : LoopState)
    (hv : src.validOk = true)
    (hi : i < src.tokens.length)
    (htrip : cfg.timeout < clock i)
    (hpre : runLoop cfg clock 0 initState (src.tokens.take i) none = .ok st) :
    addFromSource cfg clock src =
      ⟨.FAILURE, none, "Operation timeout after " ++ cfg.timeoutRepr ++ "s",
       0, 0, none, src.name⟩ := by
  have hlen : (src.tokens.take i).length = i := by
    rw [List.length_take]
    omega
  have hdrop : src.tokens.drop i = src.tokens[i] :: src.tokens.drop (i+1) :=
    List.drop_eq_getElem_cons hi
  have hrun : runLoop cfg clock 0 initState src.tokens src.readError =
      .error (.timeoutExn ("Operation timeout after " ++ cfg.timeoutRepr ++ "s")) := by
    conv_lhs => rw [(List.take_append_drop i src.tokens).symm]
    rw [runLoop_append, hpre]
    dsimp only
    rw [hlen, Nat.zero_add, hdrop, runLoop, if_pos htrip]
  unfold addFromSource
  rw [if_neg (by simp [hv]), hrun]
  rfl

/-- The clock of the C6 witness: the third check observes 100 seconds. -/
def spikeClock : ℕ → ℚ := fun i => if i < 2 then 0 else 100

/-- C6 witness: two tokens are summed, then the check before the third token
observes an elapsed time beyond the default 30-second timeout. -/
theorem C6_witness :
    (listSource ["1", "2", "3"]).validOk = true ∧
    2 < (listSource ["1", "2", "3"]).tokens.length ∧
    cfgDefault.timeout < spikeClock 2 ∧
    runLoop cfgDefault spikeClock 0 initState ((listSource ["1", "2", "3"]).tokens.take 2)
      none = .ok ⟨.fin ⟨3, 0⟩, 2, 0, [], ⟨2, 0, 0⟩⟩ ∧
    addFromSource cfgDefault spikeClock (listSource ["1", "2", "3"]) =
      ⟨.FAILURE, none, "Operation timeout after " ++ cfgDefault.timeoutRepr ++ "s",
       0, 0, none, (listSource ["1", "2", "3"]).name⟩ :=
  ⟨by decide, by decide, by decide, by decide,
   C6_timeout_abort cfgDefault spikeClock (listSource ["1", "2", "3"]) 2
     ⟨.fin ⟨3, 0⟩, 2, 0, [], ⟨2, 0, 0⟩⟩ (by decide) (by decide) (by decide) (by decide)⟩

/-! Section: Claim C2 -/

/-- C2 counterexample: a source whose `validate_source` succeeds and whose
`read` yields no tokens (the intended `FileSource` over a header-only CSV is
such a source, and the `InputSource` contract admits it) makes the call
return Success with `processed_count = 0` and a present result `0.00` —
contradicting the claimed biconditionals "Success exactly when
`failed_count == 0` and `processed_count ≥ 1`" and "Failure exactly when
`processed_count == 0`". -/
theorem C2_counterexample :
    (addFromSource cfgDefault zeroClock ⟨true, "Valid", "CustomSource", [], none⟩).status
      = .SUCCESS ∧
    (addFromSource cfgDefault zeroClock
      ⟨true, "Valid", "CustomSource", [], none⟩).processedCount = 0 ∧
    (addFromSource cfgDefault zeroClock ⟨true, "Valid", "CustomSource", [], none⟩).result
      = some (.fin ⟨0, -2⟩) := by decide

/-- C2 (amended): in every returned result, the result value is present
exactly when the status is Success or Partial; and for every non-aborted call
(valid source, loop and quantize both return) whose source yields at least
one token, status is Success exactly when `failed_count = 0` and
`processed_count ≥ 1`, Failure exactly when `processed_count = 0`, and
Partial exactly when both counters are at least 1. -/
theorem C2_status_characterization (cfg : Config) (clock : ℕ → ℚ) (src : SourceModel) :
    ((addFromSource cfg clock src).result.isSome = true ↔
      ((addFromSource cfg clock src).status = .SUCCESS ∨
       (addFromSource cfg clock src).status = .PARTIAL)) ∧
    (∀ st totalQ, src.validOk = true →
      runLoop cfg clock 0 initState src.tokens src.readError = .ok st →
      quantize cfg.precision st.total = some totalQ →
      src.tokens ≠ [] →
      (((addFromSource cfg clock src).status = .SUCCESS ↔
         ((addFromSource cfg clock src).failedCount = 0 ∧
          1 ≤ (addFromSource cfg clock src).processedCount)) ∧
       ((addFromSource cfg clock src).status = .FAILURE ↔
         (addFromSource cfg clock src).processedCount = 0) ∧
       ((addFromSource cfg clock src).status = .PARTIAL ↔
         (1 ≤ (addFromSource cfg clock src).processedCount ∧
          1 ≤ (addFromSource cfg clock src).failedCount)))) := by
  refine ⟨result_presence cfg clock src, ?_⟩
  intro st totalQ hv hr hq hne
  have hcount := runLoop_counts cfg clock src.tokens src.readError 0 initState st hr
  simp only [initState] at hcount
  have hlen : 1 ≤ src.tokens.length := List.length_pos.mpr hne
  by_cases hf : st.failed = 0
  · rw [addFromSource_success cfg clock src st totalQ hv hr hq hf]
    dsimp only
    refine ⟨?_, ?_, ?_⟩
    · exact ⟨fun _ => ⟨hf, by omega⟩, fun _ => rfl⟩
    · constructor
      · intro hcon
        cases hcon
      · intro hp
        omega
    · constructor
      · intro hcon
        cases hcon
      · rintro ⟨-, hff⟩
        omega
  · by_cases hp : st.processed = 0
    · rw [addFromSource_allinvalid cfg clock src st totalQ hv hr hq hf hp]
      dsimp only
      refine ⟨?_, ?_, ?_⟩
      · constructor
        · intro hcon
          cases hcon
        · rintro ⟨hff, -⟩
          exact absurd hff hf
      · exact ⟨fun _ => hp, fun _ => rfl⟩
      · constructor
        · intro hcon
          cases hcon
        · rintro ⟨hpp, -⟩
          omega
    · rw [addFromSource_mixed cfg clock src st totalQ hv hr hq hf hp]
      dsimp only
      refine ⟨?_, ?_, ?_⟩
      · constructor
        · intro hcon
          cases hcon
        · rintro ⟨hff, -⟩
          exact absurd hff hf
      · constructor
        · intro hcon
          cases hcon
        · intro hpp
          exact absurd hpp hp
      · exact ⟨fun _ => ⟨by omega, by omega⟩, fun _ => rfl⟩

/-- C2 witness: a mixed two-token list instantiates the non-aborted
characterization; in particular its Partial status agrees with both counters
being at least 1. -/
theorem C2_witness :
    ((listSource ["1", "x"]).validOk = true ∧
     runLoop cfgDefault zeroClock 0 initState (listSource ["1", "x"]).tokens
       (listSource ["1", "x"]).readError =
       .ok ⟨.fin ⟨1, 0⟩, 1, 1, ["Index 1: Invalid number: x"], ⟨1, 0, 0⟩⟩ ∧
     quantize cfgDefault.precision (.fin ⟨1, 0⟩) = some (.fin ⟨100, -2⟩) ∧
     (listSource ["1", "x"]).tokens ≠ []) ∧
    ((addFromSource cfgDefault zeroClock (listSource ["1", "x"])).status = .PARTIAL ↔
      (1 ≤ (addFromSource cfgDefault zeroClock (listSource ["1", "x"])).processedCount ∧
       1 ≤ (addFromSource cfgDefault zeroClock (listSource ["1", "x"])).failedCount)) :=
  ⟨⟨by decide, by decide, by decide, by decide⟩,
   ((C2_status_characterization cfgDefault zeroClock (listSource ["1", "x"])).2
     ⟨.fin ⟨1, 0⟩, 1, 1, ["Index 1: Invalid number: x"], ⟨1, 0, 0⟩⟩ (.fin ⟨100, -2⟩)
     (by decide) (by decide) (by decide) (by decide)).2.2⟩

/-! Section: Claim C1 -/

/-- C1 counterexample: the single-token list `["1e30"]` consists only of
validator-valid literals, yet the call returns Failure with no result (the
default decimal context signals `InvalidOperation` while quantizing `1E+30`
to two fractional digits, since the coefficient would need 33 digits),
instead of the claimed Success with the rounded exact sum. -/
theorem C1_counterexample :
    (∀ s ∈ ["1e30"], isValidTok s = true) ∧
    (addFromSource cfgDefault zeroClock (listSource ["1e30"])).status = .FAILURE ∧
    (addFromSource cfgDefault zeroClock (listSource ["1e30"])).result = none := by
  decide

/-- C1 (amended): for every nonempty list of validator-valid, finite-valued
literals processed without tripping the timeout, provided every intermediate
running total stays within the 28-significant-digit context precision and the
final quantize is representable, the call returns Success with
`processed_count = N`, `failed_count = 0`, no error message, and a result
whose rational value is the exact decimal sum of the N values rounded
half-up to the configured precision. -/
theorem C1_exact_sum (cfg : Config) (clock : ℕ → ℚ) (numbers : List String) (q : Dec)
    (hne : numbers ≠ [])
    (hclock : ∀ i, i < numbers.length → clock i ≤ cfg.timeout)
    (hvalid : ∀ s ∈ numbers, isValidTok s = true)
    (hfin : ∀ s ∈ numbers, tokenOk s = true)
    (hnr : noCtxRounding ⟨0, 0⟩ (numbers.filterMap parsedDec) = true)
    (hq : quantizeFin cfg.precision (exactFold ⟨0, 0⟩ (numbers.filterMap parsedDec))
      = some q) :
    addFromSource cfg clock (listSource numbers) =
      ⟨.SUCCESS, some (.fin q), "", numbers.length, 0,
       some (tallyTypes zeroCounts numbers), "ListSource"⟩ ∧
    decValQ q = roundHalfUpQ cfg.precision
      (((numbers.filterMap parsedDec).map decValQ).sum) := by
  have hchar := runLoop_ok_char cfg clock numbers 0 initState ⟨0, 0⟩
    (fun i hi => by simpa using hclock i hi) hfin rfl hnr
  have hcv : numbers.countP isValidTok = numbers.length :=
    List.countP_eq_length.mpr hvalid
  have hcf : numbers.countP (fun s => !isValidTok s) = 0 := by
    rw [List.countP_eq_zero]
    intro s hs
    simp [hvalid s hs]
  have hmk : mkErrs 0 numbers = [] := mkErrs_nil 0 numbers hvalid
  rw [hcv, hcf, hmk] at hchar
  simp only [initState, List.append_nil, Nat.zero_add, Nat.add_zero] at hchar
  have hq2 : quantize cfg.precision
      (LoopState.total ⟨.fin (exactFold ⟨0, 0⟩ (numbers.filterMap parsedDec)),
        numbers.length, 0, [], tallyTypes zeroCounts numbers⟩) = some (.fin q) := by
    simp only [quantize, hq, Option.map_some']
  constructor
  · rw [addFromSource_success cfg clock (listSource numbers) _ (.fin q)
      (by simp [listSource, hne]) hchar hq2 rfl]
    rfl
  · rw [quantizeFin_val cfg.precision _ q hq, exactFold_val]
    have h0 : decValQ ⟨0, 0⟩ = 0 := by
      unfold decValQ
      norm_num
    rw [h0, zero_add]

/-- C1 witness: the spec's rounding-law pair `1.005 + 1.0 = 2.01` at
precision 2 (a genuine half-up tie: half-even would give `2.00`). -/
theorem C1_witness :
    (∀ s ∈ ["1.005", "1.0"], isValidTok s = true) ∧
    addFromSource cfgDefault zeroClock (listSource ["1.005", "1.0"]) =
      ⟨.SUCCESS, some (.fin ⟨201, -2⟩), "", (["1.005", "1.0"] : List String).length, 0,
       some (tallyTypes zeroCounts ["1.005", "1.0"]), "ListSource"⟩ ∧
    decValQ ⟨201, -2⟩ = roundHalfUpQ cfgDefault.precision
      (((["1.005", "1.0"] : List String).filterMap parsedDec).map decValQ).sum :=
  ⟨by decide,
   (C1_exact_sum cfgDefault zeroClock ["1.005", "1.0"] ⟨201, -2⟩
     (by decide) (by decide) (by decide) (by decide) (by decide) (by decide)).1,
   (C1_exact_sum cfgDefault zeroClock ["1.005", "1.0"] ⟨201, -2⟩
     (by decide) (by decide) (by decide) (by decide) (by decide) (by decide)).2⟩

/-! Section: Claim C3 -/

/-- C3 counterexample: `["1e30", "x"]` holds one valid and one invalid
literal, yet the call returns Failure (quantizing the running total `1E+30`
signals `InvalidOperation`), not the claimed Partial. -/
theorem C3_counterexample :
    isValidTok "1e30" = true ∧ isValidTok "x" = false ∧
    (addFromSource cfgDefault zeroClock (listSource ["1e30", "x"])).status
      = .FAILURE := by decide

/-- C3 (amended): for every list with at least one valid and at least one
invalid literal, every valid literal finite-valued, processed without
tripping the timeout, provided the running totals stay within the context
precision and the final quantize is representable, the call returns Partial
with the counters counting valid and invalid tokens, the first five indexed
error messages joined, and a result whose rational value is the exact sum of
the valid entries only, rounded half-up to the configured precision; invalid
tokens do not abort processing. -/
theorem C3_partial_sum (cfg : Config) (clock : ℕ → ℚ) (numbers : List String) (q : Dec)
    (hv1 : numbers.countP isValidTok ≠ 0)
    (hf1 : numbers.countP (fun s => !isValidTok s) ≠ 0)
    (hclock : ∀ i, i < numbers.length → clock i ≤ cfg.timeout)
    (hfin : ∀ s ∈ numbers, tokenOk s = true)
    (hnr : noCtxRounding ⟨0, 0⟩ (numbers.filterMap parsedDec) = true)
    (hq : quantizeFin cfg.precision (exactFold ⟨0, 0⟩ (numbers.filterMap parsedDec))
      = some q) :
    addFromSource cfg clock (listSource numbers) =
      ⟨.PARTIAL, some (.fin q),
       String.intercalate "; " ((mkErrs 0 numbers).take 5),
       numbers.countP isValidTok, numbers.countP (fun s => !isValidTok s),
       some (tallyTypes zeroCounts numbers), "ListSource"⟩ ∧
    decValQ q = roundHalfUpQ cfg.precision
      (((numbers.filterMap parsedDec).map decValQ).sum) := by
  have hne : numbers ≠ [] := by
    intro hnil
    rw [hnil] at hv1
    simp at hv1
  have hchar := runLoop_ok_char cfg clock numbers 0 initState ⟨0, 0⟩
    (fun i hi => by simpa using hclock i hi) hfin rfl hnr
  simp only [initState, List.nil_append, Nat.zero_add] at hchar
  have hq2 : quantize cfg.precision
      (LoopState.total ⟨.fin (exactFold ⟨0, 0⟩ (numbers.filterMap parsedDec)),
        numbers.countP isValidTok, numbers.countP (fun s => !isValidTok s),
        mkErrs 0 numbers, tallyTypes zeroCounts numbers⟩) = some (.fin q) := by
    simp only [quantize, hq, Option.map_some']
  constructor
  · rw [addFromSource_mixed cfg clock (listSource numbers) _ (.fin q)
      (by simp [listSource, hne]) hchar hq2 hf1 hv1]
    rfl
  · rw [quantizeFin_val cfg.precision _ q hq, exactFold_val]
    have h0 : decValQ ⟨0, 0⟩ = 0 := by
      unfold decValQ
      norm_num
    rw [h0, zero_add]

/-- C3 witness: two valid literals and one invalid literal at precision 2
yield Partial with the valid sum `1.005 + 1.0` rounded half-up to `2.01`. -/
theorem C3_witness :
    ((["1.005", "abc", "1.0"] : List String).countP isValidTok ≠ 0 ∧
     (["1.005", "abc", "1.0"] : List String).countP (fun s => !isValidTok s) ≠ 0) ∧
    addFromSource cfgDefault zeroClock (listSource ["1.005", "abc", "1.0"]) =
      ⟨.PARTIAL, some (.fin ⟨201, -2⟩),
       String.intercalate "; " ((mkErrs 0 ["1.005", "abc", "1.0"]).take 5),
       (["1.005", "abc", "1.0"] : List String).countP isValidTok,
       (["1.005", "abc", "1.0"] : List String).countP (fun s => !isValidTok s),
       some (tallyTypes zeroCounts ["1.005", "abc", "1.0"]), "ListSource"⟩ ∧
    decValQ ⟨201, -2⟩ = roundHalfUpQ cfgDefault.precision
      (((["1.005", "abc", "1.0"] : List String).filterMap parsedDec).map decValQ).sum :=
  ⟨⟨by decide, by decide⟩,
   (C3_partial_sum cfgDefault zeroClock ["1.005", "abc", "1.0"] ⟨201, -2⟩
     (by decide) (by decide) (by decide) (by decide) (by decide) (by decide)).1,
   (C3_partial_sum cfgDefault zeroClock ["1.005", "abc", "1.0"] ⟨201, -2⟩
     (by decide) (by decide) (by decide) (by decide) (by decide) (by decide)).2⟩

end AddSvc
